import Mathlib

/-!
Shallow embedding of the tree-construction traversal engine of
`src/cli.js` (Notion-ls-tree): the data model (`TreeNode`, remote item
shapes), the title normalizer (`getPageTitle`, `getDatabaseTitle`), the
remote client boundary (`Remote`), the fetch helpers
(`fetchRootItems`, `fetchDatabasePages`, `fetchPageChildren`) and the
recursive builder (`buildTree`, mirroring `buildTreeRecursively`),
plus an instrumented variant threading the progress-reporting state.
Remote calls that can throw are modelled with `Except`; the traversal
counts the remote calls it issues in a `Calls` record.  Recursion over
the (possibly cyclic) remote graph is made total with a fuel
parameter; every claim is stated for all fuel values, or for enough
fuel to enter the expansion under scrutiny.
-/

namespace NotionTree

/-- One rich-text run, as consumed by the title normalizer
(`text.plain_text` in the source). -/
structure RichText where
  plain_text : String
deriving DecidableEq, Repr

/-- A page property as inspected by `getPageTitle`: only its `type`
tag and (when it is the title property) its list of rich-text runs are
ever read. -/
structure PageProperty where
  type : String
  title : List RichText
deriving DecidableEq, Repr

/-- The embedded `child_page` / `child_database` payload of a raw page
object (`page.child_page.title`). -/
structure ChildPayload where
  title : String
deriving DecidableEq, Repr

/-- A raw page object as returned by the remote search or a database
query.  `parent` holds the `parent.type` tag (the code only reads
`result.parent.type`); `object` holds the `result.object` tag. -/
structure RawPage where
  id : String
  object : String
  parent : String
  url : String
  properties : Option (List (String × PageProperty))
  child_page : Option ChildPayload
deriving DecidableEq, Repr

/-- A raw database object as returned by the remote search. -/
structure RawDatabase where
  id : String
  object : String
  parent : String
  url : String
  title : List RichText
deriving DecidableEq, Repr

/-- A block returned by the block-children listing.  The code only
distinguishes `child_page` and `child_database` blocks (reading their
embedded title) and ignores every other block type. -/
inductive Block where
  | childPage (id : String) (title : String)
  | childDatabase (id : String) (title : String)
  | other (id : String) (type : String)
deriving DecidableEq, Repr

/-- The intermediate item built from a raw remote object
(spec: `RemoteItem`): exactly the fields the code pushes before
recursing (`id`, `title`, `type`, `parent` tag, optional `url`). -/
structure Item where
  id : String
  title : String
  type : String
  parent : String
  url : Option String
deriving DecidableEq, Repr

/-- The in-memory tree node (`class TreeNode` in the source). -/
inductive TreeNode where
  | mk (id title type : String) (url : Option String)
      (children : List TreeNode)
deriving Repr

def TreeNode.id : TreeNode → String
  | .mk i _ _ _ _ => i

def TreeNode.title : TreeNode → String
  | .mk _ t _ _ _ => t

def TreeNode.type : TreeNode → String
  | .mk _ _ ty _ _ => ty

def TreeNode.url : TreeNode → Option String
  | .mk _ _ _ u _ => u

def TreeNode.children : TreeNode → List TreeNode
  | .mk _ _ _ _ cs => cs

/-- The configured maximum depth (`options.maxDepth`).  In the source
this is a JavaScript number: `Infinity` by default, an integer after a
successful `parseInt`, or `NaN` when `parseInt` fails.  `depth >= x`
is false for every finite `depth` when `x` is `Infinity` or `NaN`. -/
inductive MaxDepth where
  | finite (n : Int)
  | infinity
  | nan
deriving DecidableEq, Repr

/-- The JavaScript comparison `depth >= options.maxDepth` at line 317:
false for every finite depth against `Infinity`, and false against
`NaN` (every NaN comparison is false). -/
def depthReached (depth : Nat) : MaxDepth → Bool
  | .finite n => decide ((depth : Int) ≥ n)
  | .infinity => false
  | .nan => false

/-- The traversal-relevant options (`options.maxDepth`,
`options.includeUrls`).  The `quiet` flag only gates progress output
and is passed separately to the instrumented traversal. -/
structure Config where
  maxDepth : MaxDepth
  includeUrls : Bool
deriving DecidableEq, Repr

/-- `parseInt(s, 10)`: skip leading whitespace, read an optional sign,
then the maximal run of decimal digits; `NaN` when no digit is read
(the embedding of line 49, `options.maxDepth = parseInt(args[++i], 10)`). -/
def jsParseInt (s : String) : MaxDepth :=
  let cs := s.toList.dropWhile (fun c => c.isWhitespace)
  let signAndRest : Int × List Char :=
    match cs with
    | '-' :: rest => (-1, rest)
    | '+' :: rest => (1, rest)
    | _ => (1, cs)
  let digits := signAndRest.2.takeWhile Char.isDigit
  if digits.isEmpty then .nan
  else
    .finite (signAndRest.1 *
      ((digits.foldl (fun acc c => acc * 10 + (c.toNat - '0'.toNat)) 0 : Nat) : Int))

/-- Counters for the remote calls the traversal issues and the
non-fatal warnings it prints: `queryDb` counts `notion.databases.query`
calls, `listBlocks` counts `notion.blocks.children.list` calls,
`retrieveDetail` counts the secondary `notion.pages.retrieve` /
`notion.databases.retrieve` URL-detail fetches, `warnings` counts the
`console.error` warnings emitted by the catch blocks of
`fetchDatabasePages` / `fetchPageChildren`. -/
structure Calls where
  queryDb : Nat := 0
  listBlocks : Nat := 0
  retrieveDetail : Nat := 0
  warnings : Nat := 0
deriving DecidableEq, Repr

def Calls.add (a b : Calls) : Calls :=
  ⟨a.queryDb + b.queryDb, a.listBlocks + b.listBlocks,
   a.retrieveDetail + b.retrieveDetail, a.warnings + b.warnings⟩

instance : Add Calls := ⟨Calls.add⟩

def Calls.zero : Calls := {}

def sumCalls : List Calls → Calls
  | [] => Calls.zero
  | c :: l => c + sumCalls l

/-- The remote content-service boundary (the black-box client of the
spec).  `searchPages` / `searchDatabases` are the (single) result pages
of the two filtered `notion.search` calls; `queryDatabase` is the
single-page `notion.databases.query`; `listChildren` gives, per page
id, the successive responses of the cursor-driven
`notion.blocks.children.list` loop (the `i`-th element is the response
of the `i`-th call, `has_more` meaning a further element exists, and an
`Except.error` element meaning that call throws); `retrievePage` /
`retrieveDatabase` are the URL-detail fetches. -/
structure Remote where
  searchPages : List RawPage
  searchDatabases : List RawDatabase
  queryDatabase : String → Except Unit (List RawPage)
  listChildren : String → List (Except Unit (List Block))
  retrievePage : String → Except Unit String
  retrieveDatabase : String → Except Unit String

/-- `property.title.map(text => text.plain_text).join('')`. -/
def joinPlainText (runs : List RichText) : String :=
  String.join (runs.map (fun t => t.plain_text))

/-- The `for (const key in page.properties)` scan of `getPageTitle`:
the first property whose `type` is `'title'` and whose run list is
non-empty. -/
def findTitleProperty : List (String × PageProperty) → Option PageProperty
  | [] => none
  | (_, p) :: rest =>
    if p.type == "title" && decide (p.title.length > 0) then some p
    else findTitleProperty rest

/-- `getPageTitle` (lines 447-465): concatenate the runs of the first
non-empty title property; otherwise fall back to the embedded
`child_page.title` when that is truthy (a non-empty string); otherwise
the literal `"Untitled"`. -/
def getPageTitle (page : RawPage) : String :=
  match (match page.properties with
         | some props => findTitleProperty props
         | none => none) with
  | some p => joinPlainText p.title
  | none =>
    match page.child_page with
    | some cp => if cp.title == "" then "Untitled" else cp.title
    | none => "Untitled"

/-- `getDatabaseTitle` (lines 468-473). -/
def getDatabaseTitle (database : RawDatabase) : String :=
  if decide (database.title.length > 0) then joinPlainText database.title
  else "Untitled Database"

/-- The item pushed for a workspace-level page search result
(lines 259-265). -/
def rootPageItem (cfg : Config) (result : RawPage) : Item :=
  { id := result.id, title := getPageTitle result, type := result.object,
    parent := result.parent,
    url := if cfg.includeUrls then some result.url else none }

/-- The item pushed for a workspace-level database search result
(lines 285-291). -/
def rootDatabaseItem (cfg : Config) (result : RawDatabase) : Item :=
  { id := result.id, title := getDatabaseTitle result, type := result.object,
    parent := result.parent,
    url := if cfg.includeUrls then some result.url else none }

/-- `fetchRootItems` (lines 240-302): loop over the page-filtered
search results pushing workspace-parented ones, then loop over the
database-filtered results doing the same, into one array. -/
def fetchRootItems (cfg : Config) (r : Remote) : List Item :=
  let rootItems := r.searchPages.foldl
    (fun acc result =>
      if result.parent == "workspace" then acc ++ [rootPageItem cfg result]
      else acc) []
  r.searchDatabases.foldl
    (fun acc result =>
      if result.parent == "workspace" then acc ++ [rootDatabaseItem cfg result]
      else acc) rootItems

/-- The item pushed for a database row (lines 352-359): always of type
`'page'`. -/
def rowItem (cfg : Config) (page : RawPage) : Item :=
  { id := page.id, title := getPageTitle page, type := "page",
    parent := page.parent,
    url := if cfg.includeUrls then some page.url else none }

/-- `fetchDatabasePages` (lines 341-367): one `notion.databases.query`
call; on success each row becomes a page item, on failure the catch
block prints a warning and the (still empty) array is returned. -/
def fetchDatabasePages (cfg : Config) (r : Remote) (databaseId : String) :
    List Item × Calls :=
  match r.queryDatabase databaseId with
  | .ok results => (results.map (rowItem cfg), { queryDb := 1 })
  | .error _ => ([], { queryDb := 1, warnings := 1 })

/-- Processing of one block inside the pagination loop of
`fetchPageChildren` (lines 385-425): a `child_page` / `child_database`
block becomes an item (with an optional URL-detail fetch whose failure
is silently ignored), every other block is skipped. -/
def childBlockItem (cfg : Config) (r : Remote) (b : Block) :
    Option Item × Calls :=
  match b with
  | .childPage id title =>
    if cfg.includeUrls then
      match r.retrievePage id with
      | .ok u =>
        (some { id := id, title := title, type := "page",
                parent := "page_id", url := some u },
         { retrieveDetail := 1 })
      | .error _ =>
        (some { id := id, title := title, type := "page",
                parent := "page_id", url := none },
         { retrieveDetail := 1 })
    else
      (some { id := id, title := title, type := "page",
              parent := "page_id", url := none }, {})
  | .childDatabase id title =>
    if cfg.includeUrls then
      match r.retrieveDatabase id with
      | .ok u =>
        (some { id := id, title := title, type := "database",
                parent := "page_id", url := some u },
         { retrieveDetail := 1 })
      | .error _ =>
        (some { id := id, title := title, type := "database",
                parent := "page_id", url := none },
         { retrieveDetail := 1 })
    else
      (some { id := id, title := title, type := "database",
              parent := "page_id", url := none }, {})
  | .other _ _ => (none, {})

/-- The `for (const block of response.results)` loop body over one
response page. -/
def processBlocks (cfg : Config) (r : Remote) : List Block →
    List Item × Calls
  | [] => ([], Calls.zero)
  | b :: bs =>
    let head := childBlockItem cfg r b
    let rest := processBlocks cfg r bs
    (head.1.toList ++ rest.1, head.2 + rest.2)

/-- The `while (hasMore)` pagination loop of `fetchPageChildren`: each
successful response contributes its qualifying blocks and the loop
continues while `has_more`; a throwing call lands in the catch block
(one warning) and the children accumulated so far are returned. -/
def fetchBatches (cfg : Config) (r : Remote) :
    List (Except Unit (List Block)) → List Item × Calls
  | [] => ([], Calls.zero)
  | .error _ :: _ => ([], { listBlocks := 1, warnings := 1 })
  | .ok blocks :: rest =>
    let step := processBlocks cfg r blocks
    let restRes := fetchBatches cfg r rest
    (step.1 ++ restRes.1, { listBlocks := 1 } + step.2 + restRes.2)

/-- `fetchPageChildren` (lines 370-444). -/
def fetchPageChildren (cfg : Config) (r : Remote) (pageId : String) :
    List Item × Calls :=
  fetchBatches cfg r (r.listChildren pageId)

/-- The node a truncated (or non-expandable) item produces:
`new TreeNode(item.id, item.title, item.type, item.url)` with no
children appended. -/
def leafNode (item : Item) : TreeNode :=
  .mk item.id item.title item.type item.url []

/-- `buildTreeRecursively` (lines 308-338): create the node, stop
before any listing call once `depth >= options.maxDepth`, otherwise
expand a database via `fetchDatabasePages` or a page via
`fetchPageChildren`, recursively building each fetched child at
`depth + 1` and appending in order.  `fuel` bounds the recursion depth
to make the function total; the source relies on the remote store
being acyclic instead. -/
def buildTree (cfg : Config) (r : Remote) :
    Nat → Item → Nat → TreeNode × Calls
  | fuel, item, depth =>
    if depthReached depth cfg.maxDepth then (leafNode item, Calls.zero)
    else
      match fuel with
      | 0 => (leafNode item, Calls.zero)
      | fuel' + 1 =>
        if item.type == "database" then
          let fetched := fetchDatabasePages cfg r item.id
          let built := fetched.1.map
            (fun child => buildTree cfg r fuel' child (depth + 1))
          (.mk item.id item.title item.type item.url (built.map Prod.fst),
           fetched.2 + sumCalls (built.map Prod.snd))
        else if item.type == "page" then
          let fetched := fetchPageChildren cfg r item.id
          let built := fetched.1.map
            (fun child => buildTree cfg r fuel' child (depth + 1))
          (.mk item.id item.title item.type item.url (built.map Prod.fst),
           fetched.2 + sumCalls (built.map Prod.snd))
        else (leafNode item, Calls.zero)
termination_by structural fuel _ _ => fuel

/-- The root loop of `generateNotionTree` (lines 192-199): build each
root node at depth 0 and push it, in order. -/
def buildForest (cfg : Config) (r : Remote) (fuel : Nat)
    (roots : List Item) : List TreeNode × Calls :=
  roots.foldl
    (fun acc rootItem =>
      let res := buildTree cfg r fuel rootItem 0
      (acc.1 ++ [res.1], acc.2 + res.2))
    ([], Calls.zero)

/-- The whole traversal: root discovery followed by the root loop. -/
def runTraversal (cfg : Config) (r : Remote) (fuel : Nat) :
    List TreeNode × Calls :=
  buildForest cfg r fuel (fetchRootItems cfg r)

/-! ## Progress-reporting state

The source keeps module-level mutable progress state
(`currentStatusMessage`, `processedItems`, `totalItems`,
`totalNodesProcessed`) updated through `updateSpinnerMessage` and
`updateProgressCounter`, both no-ops under `--quiet`.  The instrumented
traversal below threads that state explicitly alongside the plain
result. -/

structure ProgressState where
  currentStatusMessage : String
  processedItems : Nat
  totalItems : Nat
  totalNodesProcessed : Nat
deriving DecidableEq, Repr

/-- `updateSpinnerMessage` (lines 132-135). -/
def updateSpinnerMessage (quiet : Bool) (message : String)
    (ps : ProgressState) : ProgressState :=
  if quiet then ps else { ps with currentStatusMessage := message }

/-- `updateProgressCounter` (lines 138-144). -/
def updateProgressCounter (quiet : Bool) (processed : Nat)
    (total : Option Nat) (ps : ProgressState) : ProgressState :=
  if quiet then ps
  else
    match total with
    | some t => { ps with processedItems := processed, totalItems := t }
    | none => { ps with processedItems := processed }

/-- `fetchRootItems` with its spinner messages and local
`pagesProcessed` / `dbProcessed` counters. -/
def fetchRootItemsP (cfg : Config) (quiet : Bool) (r : Remote)
    (ps : ProgressState) : List Item × ProgressState :=
  let ps := updateSpinnerMessage quiet "Searching for pages..." ps
  let pagesRes := r.searchPages.foldl
    (fun (acc : List Item × Nat × ProgressState) result =>
      let items :=
        if result.parent == "workspace" then acc.1 ++ [rootPageItem cfg result]
        else acc.1
      let n := acc.2.1 + 1
      (items, n,
       updateSpinnerMessage quiet ("Found " ++ toString n ++ " pages...")
         acc.2.2))
    ([], 0, ps)
  let ps := updateSpinnerMessage quiet "Searching for databases..." pagesRes.2.2
  let dbRes := r.searchDatabases.foldl
    (fun (acc : List Item × Nat × ProgressState) result =>
      let items :=
        if result.parent == "workspace" then
          acc.1 ++ [rootDatabaseItem cfg result]
        else acc.1
      let n := acc.2.1 + 1
      (items, n,
       updateSpinnerMessage quiet
         ("Found " ++ toString pagesRes.2.1 ++ " pages and " ++ toString n ++
          " databases...") acc.2.2))
    (pagesRes.1, 0, ps)
  (dbRes.1, dbRes.2.2)

/-- `fetchDatabasePages` with its spinner messages. -/
def fetchDatabasePagesP (cfg : Config) (quiet : Bool) (r : Remote)
    (databaseId : String) (ps : ProgressState) :
    (List Item × Calls) × ProgressState :=
  let ps := updateSpinnerMessage quiet
    ("Fetching pages from database " ++ databaseId.take 8 ++ "...") ps
  match r.queryDatabase databaseId with
  | .ok results =>
    let pages := results.map (rowItem cfg)
    ((pages, { queryDb := 1 }),
     updateSpinnerMessage quiet
       ("Found " ++ toString pages.length ++ " pages in database " ++
        databaseId.take 8) ps)
  | .error _ => (([], { queryDb := 1, warnings := 1 }), ps)

/-- The pagination loop of `fetchPageChildren` with the
`Fetching more children...` message emitted when `has_more` is set. -/
def fetchBatchesP (cfg : Config) (quiet : Bool) (r : Remote)
    (pageId : String) : List (Except Unit (List Block)) → ProgressState →
    (List Item × Calls) × ProgressState
  | [], ps => (([], Calls.zero), ps)
  | .error _ :: _, ps => (([], { listBlocks := 1, warnings := 1 }), ps)
  | .ok blocks :: rest, ps =>
    let step := processBlocks cfg r blocks
    let ps :=
      if rest.isEmpty then ps
      else updateSpinnerMessage quiet
        ("Fetching more children for page " ++ pageId.take 8 ++ "...") ps
    let restRes := fetchBatchesP cfg quiet r pageId rest ps
    ((step.1 ++ restRes.1.1, { listBlocks := 1 } + step.2 + restRes.1.2),
     restRes.2)

/-- `fetchPageChildren` with its spinner messages; the final
`Found N child pages...` message is reached only when the loop did not
throw (no warning) and children were found. -/
def fetchPageChildrenP (cfg : Config) (quiet : Bool) (r : Remote)
    (pageId : String) (ps : ProgressState) :
    (List Item × Calls) × ProgressState :=
  let ps := updateSpinnerMessage quiet
    ("Fetching children for page " ++ pageId.take 8 ++ "...") ps
  let res := fetchBatchesP cfg quiet r pageId (r.listChildren pageId) ps
  let ps :=
    if res.1.2.warnings == 0 && decide (res.1.1.length > 0) then
      updateSpinnerMessage quiet
        ("Found " ++ toString res.1.1.length ++
         " child pages/databases in page " ++ pageId.take 8) res.2
    else res.2
  (res.1, ps)

/-- `buildTreeRecursively` with the module-global `totalNodesProcessed`
counter (incremented unconditionally) and its every-5th-node spinner
message (suppressed under `--quiet`). -/
def buildTreeP (cfg : Config) (quiet : Bool) (r : Remote) :
    Nat → Item → Nat → ProgressState → (TreeNode × Calls) × ProgressState
  | fuel, item, depth, ps =>
    let ps := { ps with totalNodesProcessed := ps.totalNodesProcessed + 1 }
    let ps :=
      if ps.totalNodesProcessed % 5 == 0 then
        updateSpinnerMessage quiet
          ("Building tree... (" ++ toString ps.totalNodesProcessed ++
           " nodes processed)") ps
      else ps
    if depthReached depth cfg.maxDepth then ((leafNode item, Calls.zero), ps)
    else
      match fuel with
      | 0 => ((leafNode item, Calls.zero), ps)
      | fuel' + 1 =>
        if item.type == "database" then
          let fetchedP := fetchDatabasePagesP cfg quiet r item.id ps
          let folded := fetchedP.1.1.foldl
            (fun (acc : (List TreeNode × Calls) × ProgressState) child =>
              let res := buildTreeP cfg quiet r fuel' child (depth + 1) acc.2
              ((acc.1.1 ++ [res.1.1], acc.1.2 + res.1.2), res.2))
            (([], fetchedP.1.2), fetchedP.2)
          ((.mk item.id item.title item.type item.url folded.1.1, folded.1.2),
           folded.2)
        else if item.type == "page" then
          let fetchedP := fetchPageChildrenP cfg quiet r item.id ps
          let folded := fetchedP.1.1.foldl
            (fun (acc : (List TreeNode × Calls) × ProgressState) child =>
              let res := buildTreeP cfg quiet r fuel' child (depth + 1) acc.2
              ((acc.1.1 ++ [res.1.1], acc.1.2 + res.1.2), res.2))
            (([], fetchedP.1.2), fetchedP.2)
          ((.mk item.id item.title item.type item.url folded.1.1, folded.1.2),
           folded.2)
        else ((leafNode item, Calls.zero), ps)
termination_by structural fuel _ _ _ => fuel

/-- The root loop of `generateNotionTree` with its per-root
`Processing ...` message and `updateProgressCounter(i + 1)` call. -/
def buildForestP (cfg : Config) (quiet : Bool) (r : Remote) (fuel : Nat) :
    List Item → Nat → List TreeNode × Calls → ProgressState →
    (List TreeNode × Calls) × ProgressState
  | [], _, acc, ps => (acc, ps)
  | rootItem :: rest, i, acc, ps =>
    let ps := updateSpinnerMessage quiet
      ("Processing " ++ rootItem.title ++ "...") ps
    let res := buildTreeP cfg quiet r fuel rootItem 0 ps
    let ps := updateProgressCounter quiet (i + 1) none res.2
    buildForestP cfg quiet r fuel rest (i + 1)
      (acc.1 ++ [res.1.1], acc.2 + res.1.2) ps

/-- `generateNotionTree`'s traversal phase with progress reporting:
root discovery, the unconditional counter reset
(`processedItems = 0; totalItems = rootNodes.length`), then the root
loop. -/
def runTraversalP (cfg : Config) (quiet : Bool) (r : Remote) (fuel : Nat)
    (ps : ProgressState) : (List TreeNode × Calls) × ProgressState :=
  let ps := updateSpinnerMessage quiet
    "Searching for workspace pages and databases..." ps
  let rootsRes := fetchRootItemsP cfg quiet r ps
  let ps := { rootsRes.2 with processedItems := 0,
                              totalItems := rootsRes.1.length }
  let ps := updateSpinnerMessage quiet "Building tree structure..." ps
  buildForestP cfg quiet r fuel rootsRes.1 0 ([], Calls.zero) ps

/-! ## Tree predicates -/

/-- Every node of the tree satisfies `p`. -/
inductive AllNodes (p : TreeNode → Prop) : TreeNode → Prop where
  | node (id title type : String) (url : Option String)
      (children : List TreeNode) :
      p (.mk id title type url children) →
      (∀ c ∈ children, AllNodes p c) →
      AllNodes p (.mk id title type url children)

/-- `withinDepth d t`: no node of `t` sits strictly deeper than `d`
levels below `t`, and nodes exactly `d` levels down are leaves. -/
def withinDepth : Nat → TreeNode → Bool
  | 0, t => t.children.isEmpty
  | d + 1, t => t.children.all (fun c => withinDepth d c)

/-- The payload of a successful block-children response. -/
def okBlocks : Except Unit (List Block) → List Block
  | .ok blocks => blocks
  | .error _ => []

/-- The blocks of one response page that qualify as children:
`child_page` and `child_database` blocks. -/
def qualifying (bs : List Block) : List Block :=
  bs.filter (fun b => match b with
    | .other _ _ => false
    | _ => true)

/-- A page property is non-degenerate for titling: if it is a
non-empty title property, its runs concatenate to a non-empty
string. -/
def propertyTitleOk (p : PageProperty) : Bool :=
  !(p.type == "title" && decide (p.title.length > 0)) ||
    !(joinPlainText p.title == "")

/-- Every property of the raw page is non-degenerate for titling. -/
def rawPageTitleOk (p : RawPage) : Bool :=
  (p.properties.getD []).all (fun kv => propertyTitleOk kv.2)

/-- A raw database's title runs, when present, concatenate to a
non-empty string. -/
def rawDatabaseTitleOk (db : RawDatabase) : Bool :=
  decide (db.title.length = 0) || !(joinPlainText db.title == "")

/-- A block's embedded title, when it is a child page or database, is
non-empty. -/
def blockTitleOk : Block → Bool
  | .childPage _ t => !(t == "")
  | .childDatabase _ t => !(t == "")
  | .other _ _ => true

/-- The remote store serves only non-degenerate title data. -/
def remoteTitlesOk (r : Remote) : Prop :=
  (∀ p ∈ r.searchPages, rawPageTitleOk p = true) ∧
  (∀ db ∈ r.searchDatabases, rawDatabaseTitleOk db = true) ∧
  (∀ i rows, r.queryDatabase i = .ok rows →
    ∀ p ∈ rows, rawPageTitleOk p = true) ∧
  (∀ i, ∀ batch ∈ r.listChildren i, ∀ blocks, batch = .ok blocks →
    ∀ b ∈ blocks, blockTitleOk b = true)

/-! ## Concrete fixtures used by witnesses and counterexamples -/

/-- Unbounded depth, URLs off: the default configuration. -/
def plainCfg : Config := { maxDepth := .infinity, includeUrls := false }

/-- A remote whose only root is a database with a present but
all-empty title run list, so `getDatabaseTitle` returns `""`. -/
def c3remote : Remote :=
  { searchPages := [],
    searchDatabases := [{ id := "d0", object := "database",
                          parent := "workspace", url := "u",
                          title := [⟨""⟩] }],
    queryDatabase := fun _ => .error (),
    listChildren := fun _ => [],
    retrievePage := fun _ => .error (),
    retrieveDatabase := fun _ => .error () }

/-- A remote serving only non-degenerate titles. -/
def c3okremote : Remote :=
  { searchPages := [{ id := "p1", object := "page", parent := "workspace",
                      url := "u1",
                      properties := some
                        [("Name", { type := "title", title := [⟨"Notes"⟩] })],
                      child_page := none }],
    searchDatabases := [{ id := "d1", object := "database",
                          parent := "workspace", url := "u2",
                          title := [⟨"Tasks"⟩] }],
    queryDatabase := fun _ => .ok
      [{ id := "row1", object := "page", parent := "database_id",
         url := "ru",
         properties := some
           [("Name", { type := "title", title := [⟨"A"⟩] })],
         child_page := none }],
    listChildren := fun _ => [],
    retrievePage := fun _ => .ok "purl",
    retrieveDatabase := fun _ => .ok "durl" }

/-- A remote whose database query always fails. -/
def c5remote : Remote :=
  { searchPages := [],
    searchDatabases := [{ id := "dbf", object := "database",
                          parent := "workspace", url := "u",
                          title := [⟨"Fail"⟩] }],
    queryDatabase := fun _ => .error (),
    listChildren := fun _ => [],
    retrievePage := fun _ => .error (),
    retrieveDatabase := fun _ => .error () }

/-- The failing-database root item served by `c5remote`. -/
def c5item : Item :=
  { id := "dbf", title := "Fail", type := "database", parent := "workspace",
    url := none }

/-- A remote whose page `P` delivers one successful children batch and
then throws on the second pagination call. -/
def c6remote : Remote :=
  { searchPages := [],
    searchDatabases := [],
    queryDatabase := fun _ => .error (),
    listChildren := fun i =>
      if i == "P" then [.ok [.childPage "a1" "A"], .error ()] else [],
    retrievePage := fun _ => .error (),
    retrieveDatabase := fun _ => .error () }

/-- The page item whose pagination fails mid-way in `c6remote`. -/
def c6item : Item :=
  { id := "P", title := "Par", type := "page", parent := "workspace",
    url := none }

/-- A remote whose page `P4` delivers two successful children batches. -/
def c4remote : Remote :=
  { searchPages := [],
    searchDatabases := [],
    queryDatabase := fun _ => .error (),
    listChildren := fun i =>
      if i == "P4" then
        [.ok [.childPage "x1" "X", .other "o" "paragraph"],
         .ok [.childDatabase "y1" "Y"]]
      else [],
    retrievePage := fun _ => .error (),
    retrieveDatabase := fun _ => .error () }

/-- The two-batch page item served by `c4remote`. -/
def c4item : Item :=
  { id := "P4", title := "Pager", type := "page", parent := "workspace",
    url := none }


def c1cfg : Config := { maxDepth := .finite 1, includeUrls := false }

def c1remote : Remote :=
  { searchPages := [{ id := "p1", object := "page", parent := "workspace",
                      url := "u1",
                      properties := some [("Name", { type := "title", title := [⟨"Notes"⟩] })],
                      child_page := none }],
    searchDatabases := [],
    queryDatabase := fun _ => .error (),
    listChildren := fun i =>
      if i == "p1" then [.ok [.childPage "sub1" "Sub"]]
      else if i == "sub1" then [.ok [.childPage "sub2" "SubSub"]]
      else if i == "sub2" then [.ok [.childPage "sub3" "Deep"]]
      else [],
    retrievePage := fun _ => .ok "purl",
    retrieveDatabase := fun _ => .ok "durl" }

def c1root : Item :=
  { id := "p1", title := "Notes", type := "page", parent := "workspace",
    url := none }

def dbItemA : Item :=
  { id := "root-a", title := "A", type := "database", parent := "workspace",
    url := none }

def pageItemB : Item :=
  { id := "root-b", title := "B", type := "page", parent := "workspace",
    url := none }

/-! ## Basic lemmas about the embedding -/

theorem calls_zero_add (c : Calls) : Calls.zero + c = c := by
  show Calls.add Calls.zero c = c
  cases c
  simp [Calls.add, Calls.zero]

theorem calls_add_zero (c : Calls) : c + Calls.zero = c := by
  show Calls.add c Calls.zero = c
  cases c
  simp [Calls.add, Calls.zero]

theorem calls_add_assoc (a b c : Calls) : a + b + c = a + (b + c) := by
  show Calls.add (Calls.add a b) c = Calls.add a (Calls.add b c)
  cases a; cases b; cases c
  simp [Calls.add]
  omega

theorem buildTree_reached (cfg : Config) (r : Remote) (fuel : Nat) (item : Item)
    (depth : Nat) (h : depthReached depth cfg.maxDepth = true) :
    buildTree cfg r fuel item depth = (leafNode item, Calls.zero) := by
  cases fuel <;> simp [buildTree, h]

theorem buildTree_zero_fuel (cfg : Config) (r : Remote) (item : Item)
    (depth : Nat) :
    buildTree cfg r 0 item depth = (leafNode item, Calls.zero) := by
  simp [buildTree]

theorem buildTree_db (cfg : Config) (r : Remote) (fuel : Nat) (item : Item)
    (depth : Nat) (hd : depthReached depth cfg.maxDepth = false)
    (ht : item.type = "database") :
    buildTree cfg r (fuel + 1) item depth =
      (TreeNode.mk item.id item.title item.type item.url
         ((fetchDatabasePages cfg r item.id).1.map
           (fun c => (buildTree cfg r fuel c (depth + 1)).1)),
       (fetchDatabasePages cfg r item.id).2 +
         sumCalls ((fetchDatabasePages cfg r item.id).1.map
           (fun c => (buildTree cfg r fuel c (depth + 1)).2))) := by
  rw [buildTree]
  simp [hd, ht, List.map_map]
  rfl

theorem buildTree_page (cfg : Config) (r : Remote) (fuel : Nat) (item : Item)
    (depth : Nat) (hd : depthReached depth cfg.maxDepth = false)
    (ht : item.type = "page") :
    buildTree cfg r (fuel + 1) item depth =
      (TreeNode.mk item.id item.title item.type item.url
         ((fetchPageChildren cfg r item.id).1.map
           (fun c => (buildTree cfg r fuel c (depth + 1)).1)),
       (fetchPageChildren cfg r item.id).2 +
         sumCalls ((fetchPageChildren cfg r item.id).1.map
           (fun c => (buildTree cfg r fuel c (depth + 1)).2))) := by
  rw [buildTree]
  simp [hd, ht, List.map_map]
  rfl

theorem buildTree_other (cfg : Config) (r : Remote) (fuel : Nat) (item : Item)
    (depth : Nat) (ht1 : item.type ≠ "database") (ht2 : item.type ≠ "page") :
    buildTree cfg r fuel item depth = (leafNode item, Calls.zero) := by
  cases fuel <;> rw [buildTree] <;>
    simp [beq_eq_false_iff_ne.mpr ht1, beq_eq_false_iff_ne.mpr ht2, ite_self]

theorem buildTree_fields (cfg : Config) (r : Remote) (fuel : Nat) (item : Item)
    (depth : Nat) :
    (buildTree cfg r fuel item depth).1.id = item.id ∧
    (buildTree cfg r fuel item depth).1.title = item.title ∧
    (buildTree cfg r fuel item depth).1.type = item.type ∧
    (buildTree cfg r fuel item depth).1.url = item.url := by
  cases fuel <;> rw [buildTree] <;>
    split <;>
    first
      | exact ⟨rfl, rfl, rfl, rfl⟩
      | (split <;> [skip; split] <;>
          simp [leafNode, TreeNode.id, TreeNode.title, TreeNode.type,
                TreeNode.url])

theorem withinDepth_leaf (k : Nat) (item : Item) :
    withinDepth k (leafNode item) = true := by
  cases k <;> simp [withinDepth, leafNode, TreeNode.children]

theorem withinDepth_buildTree (cfg : Config) (r : Remote) (d : Nat)
    (h : cfg.maxDepth = .finite (d : Int)) :
    ∀ fuel depth item, depth ≤ d →
      withinDepth (d - depth) (buildTree cfg r fuel item depth).1 = true := by
  intro fuel
  induction fuel with
  | zero =>
    intro depth item _
    rw [buildTree_zero_fuel]
    exact withinDepth_leaf _ _
  | succ fuel ih =>
    intro depth item hdep
    by_cases hdr : depthReached depth cfg.maxDepth = true
    · rw [buildTree_reached cfg r _ item depth hdr]
      exact withinDepth_leaf _ _
    · have hdr' : depthReached depth cfg.maxDepth = false := by
        simpa using hdr
      have hlt : depth < d := by
        simp [depthReached, h] at hdr'
        exact_mod_cast hdr'
      have hsub : d - depth = (d - (depth + 1)) + 1 := by omega
      by_cases hty : item.type = "database"
      · rw [buildTree_db cfg r fuel item depth hdr' hty, hsub]
        simp only [withinDepth, TreeNode.children, List.all_eq_true,
                   List.mem_map]
        rintro c ⟨child, _, rfl⟩
        exact ih (depth + 1) child (by omega)
      · by_cases hty2 : item.type = "page"
        · rw [buildTree_page cfg r fuel item depth hdr' hty2, hsub]
          simp only [withinDepth, TreeNode.children, List.all_eq_true,
                     List.mem_map]
          rintro c ⟨child, _, rfl⟩
          exact ih (depth + 1) child (by omega)
        · rw [buildTree_other cfg r _ item depth hty hty2]
          exact withinDepth_leaf _ _

theorem buildForest_eq (cfg : Config) (r : Remote) (fuel : Nat)
    (roots : List Item) :
    buildForest cfg r fuel roots =
      (roots.map (fun it => (buildTree cfg r fuel it 0).1),
       sumCalls (roots.map (fun it => (buildTree cfg r fuel it 0).2))) := by
  have aux : ∀ (l : List Item) (acc : List TreeNode × Calls),
      l.foldl
        (fun acc rootItem =>
          let res := buildTree cfg r fuel rootItem 0
          (acc.1 ++ [res.1], acc.2 + res.2)) acc =
      (acc.1 ++ l.map (fun it => (buildTree cfg r fuel it 0).1),
       acc.2 + sumCalls (l.map (fun it => (buildTree cfg r fuel it 0).2))) := by
    intro l
    induction l with
    | nil => intro acc; simp [sumCalls, calls_add_zero]
    | cons x xs ih =>
      intro acc
      simp only [List.foldl_cons, ih, List.map_cons, sumCalls]
      refine Prod.ext ?_ ?_ <;> simp [calls_add_assoc]
  rw [buildForest, aux]
  simp [calls_zero_add]

theorem foldl_filter_push {α β : Type} (p : α → Bool) (f : α → β) :
    ∀ (l : List α) (acc : List β),
      l.foldl (fun a x => if p x then a ++ [f x] else a) acc =
        acc ++ (l.filter p).map f := by
  intro l
  induction l with
  | nil => intro acc; simp
  | cons x xs ih =>
    intro acc
    by_cases hp : p x
    · simp [List.foldl_cons, hp, ih]
    · simp [List.foldl_cons, hp, ih]

theorem fetchRootItems_eq (cfg : Config) (r : Remote) :
    fetchRootItems cfg r =
      (r.searchPages.filter (fun q => q.parent == "workspace")).map
        (rootPageItem cfg)
      ++ (r.searchDatabases.filter (fun q => q.parent == "workspace")).map
        (rootDatabaseItem cfg) := by
  rw [fetchRootItems]
  rw [foldl_filter_push, foldl_filter_push]
  simp



/-- C1: for every finite configured maximum depth `d ≥ 0` and every
remote graph, no `TreeNode` in the resulting tree has depth (roots at
depth 0) greater than `d`, a node at exactly depth `d` is a leaf with
zero children, and an item whose depth has reached the bound is
returned untouched with zero remote calls — its own child-listing
calls (database query or block-children listing) are skipped entirely,
not issued and filtered. -/
theorem C1_depth_bound (cfg : Config) (r : Remote) (d : Nat)
    (h : cfg.maxDepth = .finite (d : Int)) :
    (∀ fuel, ∀ t ∈ (runTraversal cfg r fuel).1, withinDepth d t = true) ∧
    (∀ fuel item, withinDepth d (buildTree cfg r fuel item 0).1 = true) ∧
    (∀ fuel item depth, d ≤ depth →
      buildTree cfg r fuel item depth = (leafNode item, Calls.zero)) := by
  refine ⟨?_, ?_, ?_⟩
  · intro fuel t ht
    rw [runTraversal, buildForest_eq] at ht
    obtain ⟨it, _, rfl⟩ := List.mem_map.mp ht
    simpa using withinDepth_buildTree cfg r d h fuel 0 it (Nat.zero_le d)
  · intro fuel item
    simpa using withinDepth_buildTree cfg r d h fuel 0 item (Nat.zero_le d)
  · intro fuel item depth hdep
    apply buildTree_reached
    simp only [depthReached, h, ge_iff_le, decide_eq_true_eq]
    exact_mod_cast hdep

theorem C1_witness :
    withinDepth 1 (buildTree c1cfg c1remote 5 c1root 0).1 = true ∧
    buildTree c1cfg c1remote 5 c1root 1 = (leafNode c1root, Calls.zero) := by
  have h := C1_depth_bound c1cfg c1remote 1 rfl
  exact ⟨h.2.1 5 c1root, h.2.2 5 c1root 1 (le_refl 1)⟩

/-- C2: sibling order at depth 0 equals the order in which root
discovery returned the items, independent of item kind: the root loop
of `generateNotionTree` pushes one node per discovered root, in
discovery order, carrying the item's id, title and kind; in particular
for discovered roots [Database "A", Page "B"] the depth-0 array is
exactly [A, B] in that order. -/
theorem C2_sibling_order (cfg : Config) (r : Remote) (fuel : Nat)
    (roots : List Item) :
    (buildForest cfg r fuel roots).1.map (fun t => (t.id, t.title, t.type)) =
      roots.map (fun it => (it.id, it.title, it.type)) ∧
    (buildForest cfg r fuel [dbItemA, pageItemB]).1.map
        (fun t => (t.id, t.title, t.type)) =
      [("root-a", "A", "database"), ("root-b", "B", "page")] := by
  have main : ∀ rs : List Item,
      (buildForest cfg r fuel rs).1.map (fun t => (t.id, t.title, t.type)) =
        rs.map (fun it => (it.id, it.title, it.type)) := by
    intro rs
    rw [buildForest_eq]
    simp only [List.map_map]
    refine List.map_congr_left ?_
    intro it _
    have h := buildTree_fields cfg r fuel it 0
    simp [Function.comp, h.1, h.2.1, h.2.2.1]
  exact ⟨main roots, by rw [main [dbItemA, pageItemB]]; rfl⟩

/-- C8: root discovery retains exactly the search results whose direct
parent is the workspace root, and the depth-0 frontier is ordered
pages first then databases, each group in remote-listing order; every
retained item's parent is the workspace. -/
theorem C8_root_frontier (cfg : Config) (r : Remote) :
    fetchRootItems cfg r =
      (r.searchPages.filter (fun q => q.parent == "workspace")).map
        (rootPageItem cfg)
      ++ (r.searchDatabases.filter (fun q => q.parent == "workspace")).map
        (rootDatabaseItem cfg) ∧
    ∀ it ∈ fetchRootItems cfg r, it.parent = "workspace" := by
  refine ⟨fetchRootItems_eq cfg r, ?_⟩
  intro it hit
  rw [fetchRootItems_eq] at hit
  rcases List.mem_append.mp hit with h | h <;>
    obtain ⟨q, hq, rfl⟩ := List.mem_map.mp h <;>
    · have hw := (List.mem_filter.mp hq).2
      simp only [beq_iff_eq] at hw
      simpa [rootPageItem, rootDatabaseItem] using hw

theorem fetchDatabasePages_maxDepth_irrel (m m' : MaxDepth) (u : Bool)
    (r : Remote) (i : String) :
    fetchDatabasePages ⟨m, u⟩ r i = fetchDatabasePages ⟨m', u⟩ r i := rfl

theorem childBlockItem_maxDepth_irrel (m m' : MaxDepth) (u : Bool)
    (r : Remote) (b : Block) :
    childBlockItem ⟨m, u⟩ r b = childBlockItem ⟨m', u⟩ r b := by
  cases b <;> rfl

theorem processBlocks_maxDepth_irrel (m m' : MaxDepth) (u : Bool)
    (r : Remote) : ∀ bs, processBlocks ⟨m, u⟩ r bs = processBlocks ⟨m', u⟩ r bs := by
  intro bs
  induction bs with
  | nil => rfl
  | cons b rest ih =>
    simp only [processBlocks, ih, childBlockItem_maxDepth_irrel m m' u r b]

theorem fetchBatches_maxDepth_irrel (m m' : MaxDepth) (u : Bool)
    (r : Remote) : ∀ l, fetchBatches ⟨m, u⟩ r l = fetchBatches ⟨m', u⟩ r l := by
  intro l
  induction l with
  | nil => rfl
  | cons b rest ih =>
    cases b with
    | error e => rfl
    | ok blocks =>
      simp only [fetchBatches, ih, processBlocks_maxDepth_irrel m m' u r blocks]

theorem fetchPageChildren_maxDepth_irrel (m m' : MaxDepth) (u : Bool)
    (r : Remote) (i : String) :
    fetchPageChildren ⟨m, u⟩ r i = fetchPageChildren ⟨m', u⟩ r i := by
  rw [fetchPageChildren, fetchPageChildren, fetchBatches_maxDepth_irrel m m' u r]

theorem fetchRootItems_maxDepth_irrel (m m' : MaxDepth) (u : Bool)
    (r : Remote) :
    fetchRootItems ⟨m, u⟩ r = fetchRootItems ⟨m', u⟩ r := rfl

theorem buildTree_nan_eq_infinity (u : Bool) (r : Remote) :
    ∀ fuel item depth,
      buildTree ⟨.nan, u⟩ r fuel item depth =
        buildTree ⟨.infinity, u⟩ r fuel item depth := by
  intro fuel
  induction fuel with
  | zero => intro item depth; rw [buildTree_zero_fuel, buildTree_zero_fuel]
  | succ fuel ih =>
    intro item depth
    by_cases hty : item.type = "database"
    · rw [buildTree_db ⟨.nan, u⟩ r fuel item depth rfl hty,
          buildTree_db ⟨.infinity, u⟩ r fuel item depth rfl hty,
          fetchDatabasePages_maxDepth_irrel .nan .infinity]
      congr 1
      · congr 1
        exact List.map_congr_left (fun c _ => by rw [ih c (depth + 1)])
      · congr 1
        exact congrArg sumCalls
          (List.map_congr_left (fun c _ => by rw [ih c (depth + 1)]))
    · by_cases hty2 : item.type = "page"
      · rw [buildTree_page ⟨.nan, u⟩ r fuel item depth rfl hty2,
            buildTree_page ⟨.infinity, u⟩ r fuel item depth rfl hty2,
            fetchPageChildren_maxDepth_irrel .nan .infinity]
        congr 1
        · congr 1
          exact List.map_congr_left (fun c _ => by rw [ih c (depth + 1)])
        · congr 1
          exact congrArg sumCalls
            (List.map_congr_left (fun c _ => by rw [ih c (depth + 1)]))
      · rw [buildTree_other _ r _ item depth hty hty2,
            buildTree_other _ r _ item depth hty hty2]

/-- C10: when the `--max-depth` value does not parse as an integer,
`parseInt` yields `NaN`, the depth check `depth >= maxDepth` is false
at every depth, and the traversal behaves exactly as with the
unbounded default (`Infinity`) — it neither fails nor treats the bound
as 0. -/
theorem C10_nan_unbounded (s : String) (h : jsParseInt s = .nan) (u : Bool)
    (r : Remote) :
    (∀ depth, depthReached depth (jsParseInt s) = false) ∧
    (∀ fuel, runTraversal ⟨jsParseInt s, u⟩ r fuel =
      runTraversal ⟨.infinity, u⟩ r fuel) := by
  rw [h]
  refine ⟨fun _ => rfl, fun fuel => ?_⟩
  rw [runTraversal, runTraversal, fetchRootItems_maxDepth_irrel .nan .infinity,
      buildForest_eq, buildForest_eq]
  congr 1
  · exact List.map_congr_left
      (fun it _ => by rw [buildTree_nan_eq_infinity u r fuel it 0])
  · exact congrArg sumCalls (List.map_congr_left
      (fun it _ => by rw [buildTree_nan_eq_infinity u r fuel it 0]))

theorem C10_witness :
    jsParseInt "abc" = .nan ∧
    depthReached 7 (jsParseInt "abc") = false ∧
    runTraversal ⟨jsParseInt "abc", false⟩ c1remote 5 =
      runTraversal ⟨.infinity, false⟩ c1remote 5 := by
  have h := C10_nan_unbounded "abc" rfl false c1remote
  exact ⟨rfl, h.1 7, h.2 5⟩

theorem calls_add_retrieveDetail (a b : Calls) :
    (a + b).retrieveDetail = a.retrieveDetail + b.retrieveDetail := rfl

theorem sumCalls_retrieveDetail (l : List Calls) :
    (sumCalls l).retrieveDetail = (l.map (fun c => c.retrieveDetail)).sum := by
  induction l with
  | nil => rfl
  | cons c cs ih => simp [sumCalls, calls_add_retrieveDetail, ih]

/-- Shared invariant-propagation lemma: if every item fetched from a
database query or a page-children listing satisfies `Pitem`, and
`Pitem` of an item forces `Pnode` of any node built from its fields,
then every node of a built tree satisfies `Pnode`. -/
theorem buildTree_allNodes (cfg : Config) (r : Remote)
    (Pitem : Item → Prop) (Pnode : TreeNode → Prop)
    (hleaf : ∀ item, Pitem item → ∀ children,
      Pnode (.mk item.id item.title item.type item.url children))
    (hdb : ∀ i, ∀ it ∈ (fetchDatabasePages cfg r i).1, Pitem it)
    (hpg : ∀ i, ∀ it ∈ (fetchPageChildren cfg r i).1, Pitem it) :
    ∀ fuel item depth, Pitem item →
      AllNodes Pnode (buildTree cfg r fuel item depth).1 := by
  intro fuel
  induction fuel with
  | zero =>
    intro item depth hi
    rw [buildTree_zero_fuel]
    exact .node _ _ _ _ _ (hleaf item hi []) (fun c hc => absurd hc (by simp))
  | succ fuel ih =>
    intro item depth hi
    by_cases hdr : depthReached depth cfg.maxDepth = true
    · rw [buildTree_reached cfg r _ item depth hdr]
      exact .node _ _ _ _ _ (hleaf item hi []) (fun c hc => absurd hc (by simp))
    · have hdr' : depthReached depth cfg.maxDepth = false := by simpa using hdr
      by_cases hty : item.type = "database"
      · rw [buildTree_db cfg r fuel item depth hdr' hty]
        refine .node _ _ _ _ _ (hleaf item hi _) ?_
        intro c hc
        obtain ⟨child, hchild, rfl⟩ := List.mem_map.mp hc
        exact ih child (depth + 1) (hdb item.id child hchild)
      · by_cases hty2 : item.type = "page"
        · rw [buildTree_page cfg r fuel item depth hdr' hty2]
          refine .node _ _ _ _ _ (hleaf item hi _) ?_
          intro c hc
          obtain ⟨child, hchild, rfl⟩ := List.mem_map.mp hc
          exact ih child (depth + 1) (hpg item.id child hchild)
        · rw [buildTree_other cfg r _ item depth hty hty2]
          exact .node _ _ _ _ _ (hleaf item hi [])
            (fun c hc => absurd hc (by simp))

theorem fetchDatabasePages_url_none (cfg : Config) (r : Remote)
    (h : cfg.includeUrls = false) (i : String) :
    ∀ it ∈ (fetchDatabasePages cfg r i).1, it.url = none := by
  intro it hit
  rw [fetchDatabasePages] at hit
  cases hq : r.queryDatabase i with
  | ok results =>
    rw [hq] at hit
    obtain ⟨p, _, rfl⟩ := List.mem_map.mp hit
    simp [rowItem, h]
  | error e => rw [hq] at hit; simp at hit

theorem childBlockItem_none_detail (cfg : Config) (r : Remote)
    (h : cfg.includeUrls = false) (b : Block) :
    (∀ it, (childBlockItem cfg r b).1 = some it → it.url = none) ∧
    (childBlockItem cfg r b).2.retrieveDetail = 0 := by
  cases b with
  | childPage id title => refine ⟨?_, ?_⟩ <;> simp [childBlockItem, h]
  | childDatabase id title => refine ⟨?_, ?_⟩ <;> simp [childBlockItem, h]
  | other id ty => refine ⟨?_, ?_⟩ <;> simp [childBlockItem, h]

theorem processBlocks_url_none (cfg : Config) (r : Remote)
    (h : cfg.includeUrls = false) :
    ∀ bs, (∀ it ∈ (processBlocks cfg r bs).1, it.url = none) ∧
      (processBlocks cfg r bs).2.retrieveDetail = 0 := by
  intro bs
  induction bs with
  | nil => exact ⟨fun it hit => absurd hit (by simp [processBlocks]), rfl⟩
  | cons b rest ih =>
    constructor
    · intro it hit
      simp only [processBlocks, List.mem_append] at hit
      rcases hit with hit | hit
      · rcases hb : (childBlockItem cfg r b).1 with _ | v
        · rw [hb] at hit; simp at hit
        · rw [hb] at hit
          simp only [Option.toList, List.mem_singleton] at hit
          subst hit
          exact (childBlockItem_none_detail cfg r h b).1 it hb
      · exact ih.1 it hit
    · simp only [processBlocks, calls_add_retrieveDetail,
                 (childBlockItem_none_detail cfg r h b).2, ih.2]

theorem fetchBatches_url_none (cfg : Config) (r : Remote)
    (h : cfg.includeUrls = false) :
    ∀ l, (∀ it ∈ (fetchBatches cfg r l).1, it.url = none) ∧
      (fetchBatches cfg r l).2.retrieveDetail = 0 := by
  intro l
  induction l with
  | nil => exact ⟨fun it hit => absurd hit (by simp [fetchBatches]), rfl⟩
  | cons b rest ih =>
    cases b with
    | error e =>
      exact ⟨fun it hit => absurd hit (by simp [fetchBatches]), rfl⟩
    | ok blocks =>
      constructor
      · intro it hit
        simp only [fetchBatches, List.mem_append] at hit
        rcases hit with hit | hit
        · exact (processBlocks_url_none cfg r h blocks).1 it hit
        · exact ih.1 it hit
      · simp only [fetchBatches, calls_add_retrieveDetail,
                   (processBlocks_url_none cfg r h blocks).2, ih.2]

theorem fetchPageChildren_url_none (cfg : Config) (r : Remote)
    (h : cfg.includeUrls = false) (i : String) :
    (∀ it ∈ (fetchPageChildren cfg r i).1, it.url = none) ∧
    (fetchPageChildren cfg r i).2.retrieveDetail = 0 :=
  fetchBatches_url_none cfg r h (r.listChildren i)

theorem fetchRootItems_url_none (cfg : Config) (r : Remote)
    (h : cfg.includeUrls = false) :
    ∀ it ∈ fetchRootItems cfg r, it.url = none := by
  intro it hit
  rw [fetchRootItems_eq] at hit
  rcases List.mem_append.mp hit with hm | hm <;>
    obtain ⟨q, _, rfl⟩ := List.mem_map.mp hm <;>
    simp [rootPageItem, rootDatabaseItem, h]

theorem fetchDatabasePages_retrieveDetail (cfg : Config) (r : Remote)
    (i : String) : (fetchDatabasePages cfg r i).2.retrieveDetail = 0 := by
  rw [fetchDatabasePages]
  cases r.queryDatabase i <;> rfl

theorem buildTree_retrieveDetail_zero (cfg : Config) (r : Remote)
    (h : cfg.includeUrls = false) :
    ∀ fuel item depth,
      (buildTree cfg r fuel item depth).2.retrieveDetail = 0 := by
  intro fuel
  induction fuel with
  | zero => intro item depth; rw [buildTree_zero_fuel]; rfl
  | succ fuel ih =>
    intro item depth
    by_cases hdr : depthReached depth cfg.maxDepth = true
    · rw [buildTree_reached cfg r _ item depth hdr]; rfl
    · have hdr' : depthReached depth cfg.maxDepth = false := by simpa using hdr
      by_cases hty : item.type = "database"
      · rw [buildTree_db cfg r fuel item depth hdr' hty]
        simp only [calls_add_retrieveDetail, sumCalls_retrieveDetail,
                   fetchDatabasePages_retrieveDetail, List.map_map]
        simp only [Nat.zero_add]
        refine List.sum_eq_zero ?_
        intro n hn
        obtain ⟨c, _, rfl⟩ := List.mem_map.mp hn
        exact ih c (depth + 1)
      · by_cases hty2 : item.type = "page"
        · rw [buildTree_page cfg r fuel item depth hdr' hty2]
          simp only [calls_add_retrieveDetail, sumCalls_retrieveDetail,
                     (fetchPageChildren_url_none cfg r h item.id).2,
                     List.map_map]
          simp only [Nat.zero_add]
          refine List.sum_eq_zero ?_
          intro n hn
          obtain ⟨c, _, rfl⟩ := List.mem_map.mp hn
          exact ih c (depth + 1)
        · rw [buildTree_other cfg r _ item depth hty hty2]; rfl

/-- C7: when URL inclusion is disabled, no node of the resulting tree
carries a URL (every node's `url` is `none`) and zero secondary
detail fetches (`pages.retrieve` / `databases.retrieve`) are issued
during the entire traversal. -/
theorem C7_urls_disabled (cfg : Config) (r : Remote)
    (h : cfg.includeUrls = false) :
    (∀ fuel, ∀ t ∈ (runTraversal cfg r fuel).1,
      AllNodes (fun n => n.url = none) t) ∧
    (∀ fuel, (runTraversal cfg r fuel).2.retrieveDetail = 0) := by
  constructor
  · intro fuel t ht
    rw [runTraversal, buildForest_eq] at ht
    obtain ⟨it, hit, rfl⟩ := List.mem_map.mp ht
    refine buildTree_allNodes cfg r (fun i => i.url = none)
      (fun n => n.url = none) ?_ ?_ ?_ fuel it 0
      (fetchRootItems_url_none cfg r h it hit)
    · intro item hi children
      simpa [TreeNode.url] using hi
    · exact fun i => fetchDatabasePages_url_none cfg r h i
    · exact fun i => (fetchPageChildren_url_none cfg r h i).1
  · intro fuel
    rw [runTraversal, buildForest_eq]
    simp only [sumCalls_retrieveDetail, List.map_map]
    refine List.sum_eq_zero ?_
    intro n hn
    obtain ⟨it, _, rfl⟩ := List.mem_map.mp hn
    exact buildTree_retrieveDetail_zero cfg r h fuel it 0

theorem C7_witness :
    AllNodes (fun n => n.url = none)
      (buildTree ⟨.infinity, false⟩ c1remote 5 c1root 0).1 ∧
    (runTraversal ⟨.infinity, false⟩ c1remote 5).2.retrieveDetail = 0 := by
  have h := C7_urls_disabled ⟨.infinity, false⟩ c1remote rfl
  refine ⟨?_, h.2 5⟩
  have hm : (buildTree ⟨.infinity, false⟩ c1remote 5 c1root 0).1 ∈
      (runTraversal ⟨.infinity, false⟩ c1remote 5).1 := by
    rw [runTraversal, buildForest_eq]
    exact List.mem_map.mpr ⟨c1root, by decide, rfl⟩
  exact h.1 5 _ hm

theorem calls_add_warnings (a b : Calls) :
    (a + b).warnings = a.warnings + b.warnings := rfl

theorem calls_add_listBlocks (a b : Calls) :
    (a + b).listBlocks = a.listBlocks + b.listBlocks := rfl

theorem processBlocks_warnings_zero (cfg : Config) (r : Remote) :
    ∀ bs, (processBlocks cfg r bs).2.warnings = 0 := by
  intro bs
  induction bs with
  | nil => rfl
  | cons b rest ih =>
    have hb : (childBlockItem cfg r b).2.warnings = 0 := by
      cases b <;> simp [childBlockItem] <;> split <;>
        first | rfl | (split <;> rfl)
    simp only [processBlocks, calls_add_warnings, hb, ih]

theorem processBlocks_listBlocks_zero (cfg : Config) (r : Remote) :
    ∀ bs, (processBlocks cfg r bs).2.listBlocks = 0 := by
  intro bs
  induction bs with
  | nil => rfl
  | cons b rest ih =>
    have hb : (childBlockItem cfg r b).2.listBlocks = 0 := by
      cases b <;> simp [childBlockItem] <;> split <;>
        first | rfl | (split <;> rfl)
    simp only [processBlocks, calls_add_listBlocks, hb, ih]

theorem childBlockItem_toList_length (cfg : Config) (r : Remote) (b : Block) :
    (childBlockItem cfg r b).1.toList.length =
      (match b with
       | .other _ _ => 0
       | _ => 1) := by
  cases b with
  | childPage id t =>
    simp only [childBlockItem]
    split
    · split <;> rfl
    · rfl
  | childDatabase id t =>
    simp only [childBlockItem]
    split
    · split <;> rfl
    · rfl
  | other id ty => rfl

theorem processBlocks_length (cfg : Config) (r : Remote) :
    ∀ bs, (processBlocks cfg r bs).1.length = (qualifying bs).length := by
  intro bs
  induction bs with
  | nil => rfl
  | cons b rest ih =>
    simp only [processBlocks, List.length_append,
               childBlockItem_toList_length cfg r b, ih]
    cases b <;> simp [qualifying] <;> omega


theorem fetchBatches_all_ok (cfg : Config) (r : Remote) :
    ∀ l, (∀ b ∈ l, ∃ blocks, b = Except.ok blocks) →
      (fetchBatches cfg r l).1 =
        (l.map (fun b => (processBlocks cfg r (okBlocks b)).1)).flatten ∧
      (fetchBatches cfg r l).2.listBlocks = l.length ∧
      (fetchBatches cfg r l).2.warnings = 0 := by
  intro l
  induction l with
  | nil => exact fun _ => ⟨rfl, rfl, rfl⟩
  | cons b rest ih =>
    intro hok
    obtain ⟨blocks, rfl⟩ := hok b (List.mem_cons_self b rest)
    have ihr := ih (fun x hx => hok x (List.mem_cons_of_mem _ hx))
    refine ⟨?_, ?_, ?_⟩
    · simp only [fetchBatches, List.map_cons, List.flatten_cons, ihr.1]
      rfl
    · simp only [fetchBatches, calls_add_listBlocks,
                 processBlocks_listBlocks_zero, ihr.2.1, List.length_cons]
      omega
    · simp only [fetchBatches, calls_add_warnings,
                 processBlocks_warnings_zero, ihr.2.2]

theorem fetchBatches_partial (cfg : Config) (r : Remote)
    (tail : List (Except Unit (List Block))) :
    ∀ good, (∀ b ∈ good, ∃ blocks, b = Except.ok blocks) →
      (fetchBatches cfg r (good ++ Except.error () :: tail)).1 =
        (good.map (fun b => (processBlocks cfg r (okBlocks b)).1)).flatten ∧
      (fetchBatches cfg r (good ++ Except.error () :: tail)).2.warnings = 1 ∧
      (fetchBatches cfg r (good ++ Except.error () :: tail)).2.listBlocks =
        good.length + 1 := by
  intro good
  induction good with
  | nil => exact fun _ => ⟨rfl, rfl, rfl⟩
  | cons b rest ih =>
    intro hok
    obtain ⟨blocks, rfl⟩ := hok b (List.mem_cons_self b rest)
    have ihr := ih (fun x hx => hok x (List.mem_cons_of_mem _ hx))
    refine ⟨?_, ?_, ?_⟩
    · simp only [List.cons_append, fetchBatches, List.map_cons,
                 List.flatten_cons, List.append_eq, ihr.1]
      rfl
    · simp only [List.cons_append, fetchBatches, calls_add_warnings,
                 processBlocks_warnings_zero, List.append_eq, ihr.2.1]
    · simp only [List.cons_append, fetchBatches, calls_add_listBlocks,
                 processBlocks_listBlocks_zero, List.append_eq, ihr.2.2,
                 List.length_cons]
      omega

/-- C4: page expansion fully consumes the cursor pagination: when
every response of the block-children listing succeeds, the listing is
called once per response page (the loop runs until `has_more` is
false), the resulting children are the qualifying
`child_page`/`child_database` blocks of all pages concatenated in
pagination order, and the node's child count equals the sum of
qualifying blocks across all pages, appended in encounter order. -/
theorem C4_pagination_consumed (cfg : Config) (r : Remote) (pid : String)
    (item : Item) (fuel depth : Nat)
    (hok : ∀ b ∈ r.listChildren pid, ∃ blocks, b = Except.ok blocks)
    (hid : item.id = pid) (hty : item.type = "page")
    (hdr : depthReached depth cfg.maxDepth = false) :
    (fetchPageChildren cfg r pid).1 =
      ((r.listChildren pid).map
        (fun b => (processBlocks cfg r (okBlocks b)).1)).flatten ∧
    (fetchPageChildren cfg r pid).1.length =
      ((r.listChildren pid).map
        (fun b => (qualifying (okBlocks b)).length)).sum ∧
    (fetchPageChildren cfg r pid).2.listBlocks = (r.listChildren pid).length ∧
    (buildTree cfg r (fuel + 1) item depth).1.children.map TreeNode.id =
      (fetchPageChildren cfg r pid).1.map Item.id := by
  have h := fetchBatches_all_ok cfg r (r.listChildren pid) hok
  refine ⟨h.1, ?_, h.2.1, ?_⟩
  · rw [fetchPageChildren, h.1, List.length_flatten]
    simp only [List.map_map]
    congr 1
    exact List.map_congr_left
      (fun b _ => by simp [Function.comp, processBlocks_length])
  · rw [buildTree_page cfg r fuel item depth hdr hty, hid]
    simp only [TreeNode.children, List.map_map]
    exact List.map_congr_left
      (fun c _ => by simp [Function.comp, (buildTree_fields cfg r fuel c (depth + 1)).1])

theorem C4_witness :
    (fetchPageChildren plainCfg c4remote "P4").1.length = 2 ∧
    (fetchPageChildren plainCfg c4remote "P4").1.length =
      ((c4remote.listChildren "P4").map
        (fun b => (qualifying (okBlocks b)).length)).sum ∧
    (fetchPageChildren plainCfg c4remote "P4").2.listBlocks = 2 ∧
    (buildTree plainCfg c4remote 3 c4item 0).1.children.map TreeNode.id =
      (fetchPageChildren plainCfg c4remote "P4").1.map Item.id := by
  have h := C4_pagination_consumed plainCfg c4remote "P4" c4item 2 0
    (by intro b hb
        simp only [c4remote] at hb
        simp at hb
        rcases hb with rfl | rfl
        · exact ⟨_, rfl⟩
        · exact ⟨_, rfl⟩)
    rfl rfl rfl
  exact ⟨rfl, h.2.1, h.2.2.1, h.2.2.2⟩

/-- C5: a database whose row-listing call fails yields a leaf node
with `children = []`, exactly one warning is surfaced (and only the
one attempted query call is issued), and the traversal still
completes, returning every root's subtree independently — no failure
escapes past the failing node. -/
theorem C5_db_failure_isolated (cfg : Config) (r : Remote) (dbId : String)
    (item : Item) (hq : r.queryDatabase dbId = .error ())
    (hid : item.id = dbId) (hty : item.type = "database") :
    (∀ fuel depth, (buildTree cfg r fuel item depth).1 = leafNode item) ∧
    (∀ fuel depth, depthReached depth cfg.maxDepth = false →
      (buildTree cfg r (fuel + 1) item depth).2 =
        { queryDb := 1, warnings := 1 }) ∧
    (∀ fuel roots, (buildForest cfg r fuel roots).1 =
      roots.map (fun it => (buildTree cfg r fuel it 0).1)) := by
  have hfetch : fetchDatabasePages cfg r item.id = ([], { queryDb := 1, warnings := 1 }) := by
    rw [fetchDatabasePages, hid, hq]
  refine ⟨?_, ?_, ?_⟩
  · intro fuel depth
    cases fuel with
    | zero => rw [buildTree_zero_fuel]
    | succ fuel =>
      by_cases hdr : depthReached depth cfg.maxDepth = true
      · rw [buildTree_reached cfg r _ item depth hdr]
      · rw [buildTree_db cfg r fuel item depth (by simpa using hdr) hty, hfetch]
        rfl
  · intro fuel depth hdr
    rw [buildTree_db cfg r fuel item depth hdr hty, hfetch]
    simp [sumCalls, calls_add_zero]
  · intro fuel roots
    rw [buildForest_eq]

theorem C5_witness :
    (buildTree plainCfg c5remote 3 c5item 0).1 = leafNode c5item ∧
    (buildTree plainCfg c5remote 3 c5item 0).2 =
      { queryDb := 1, warnings := 1 } ∧
    (buildForest plainCfg c5remote 3 [c5item, pageItemB]).1 =
      [(buildTree plainCfg c5remote 3 c5item 0).1,
       (buildTree plainCfg c5remote 3 pageItemB 0).1] := by
  have h := C5_db_failure_isolated plainCfg c5remote "dbf" c5item rfl rfl rfl
  exact ⟨h.1 3 0, h.2.1 2 0 rfl, h.2.2 3 [c5item, pageItemB]⟩

/-- C6 counterexample: for page `P` of `c6remote`, the second
pagination call throws (the fetch fails mid-loop, surfacing one
warning), yet the resulting node's children are NOT empty — the child
collected from the first, successful batch is kept.  This refutes the
claim that a failed page-children fetch always leaves the node with
empty children. -/
theorem C6_counterexample :
    (c6remote.listChildren "P").get? 1 = some (Except.error ()) ∧
    (fetchPageChildren plainCfg c6remote "P").2.warnings = 1 ∧
    (fetchPageChildren plainCfg c6remote "P").1.length = 1 ∧
    (buildTree plainCfg c6remote 2 c6item 0).1.children ≠ [] := by
  exact ⟨rfl, rfl, rfl, List.cons_ne_nil _ _⟩

/-- C6 amended: if a page's child-blocks fetch fails at some point in
its pagination loop, the affected node keeps exactly the children
accumulated from the successfully returned batches before the failing
call (empty when the first call fails), the failure is surfaced as one
non-fatal warning, and it never unwinds past the node whose expansion
it occurred in: the node is still built (child count equal to the
fetched-item count) and every root's subtree is returned. -/
theorem C6_page_failure_partial (cfg : Config) (r : Remote) (pid : String)
    (item : Item) (good tail : List (Except Unit (List Block)))
    (hl : r.listChildren pid = good ++ Except.error () :: tail)
    (hok : ∀ b ∈ good, ∃ blocks, b = Except.ok blocks)
    (hid : item.id = pid) (hty : item.type = "page") :
    (fetchPageChildren cfg r pid).1 =
      (good.map (fun b => (processBlocks cfg r (okBlocks b)).1)).flatten ∧
    (fetchPageChildren cfg r pid).2.warnings = 1 ∧
    (fetchPageChildren cfg r pid).2.listBlocks = good.length + 1 ∧
    (∀ fuel depth, depthReached depth cfg.maxDepth = false →
      (buildTree cfg r (fuel + 1) item depth).1.children.length =
        (fetchPageChildren cfg r pid).1.length) ∧
    (∀ fuel roots, (buildForest cfg r fuel roots).1 =
      roots.map (fun it => (buildTree cfg r fuel it 0).1)) := by
  have h := fetchBatches_partial cfg r tail good hok
  rw [fetchPageChildren, hl]
  refine ⟨h.1, h.2.1, h.2.2, ?_, ?_⟩
  · intro fuel depth hdr
    rw [buildTree_page cfg r fuel item depth hdr hty, hid]
    simp only [TreeNode.children, List.length_map]
    rw [fetchPageChildren, hl]
  · intro fuel roots
    rw [buildForest_eq]

theorem C6_amended_witness :
    (fetchPageChildren plainCfg c6remote "P").1 =
      (([Except.ok [Block.childPage "a1" "A"]]).map
        (fun b => (processBlocks plainCfg c6remote (okBlocks b)).1)).flatten ∧
    (fetchPageChildren plainCfg c6remote "P").2.warnings = 1 ∧
    (fetchPageChildren plainCfg c6remote "P").2.listBlocks = 2 ∧
    (buildTree plainCfg c6remote 2 c6item 0).1.children.length =
      (fetchPageChildren plainCfg c6remote "P").1.length := by
  have h := C6_page_failure_partial plainCfg c6remote "P" c6item
    [Except.ok [Block.childPage "a1" "A"]] [] rfl
    (by intro b hb
        simp at hb
        subst hb
        exact ⟨_, rfl⟩)
    rfl rfl
  exact ⟨h.1, h.2.1, h.2.2.1, h.2.2.2.1 1 0 rfl⟩

theorem findTitleProperty_spec :
    ∀ (l : List (String × PageProperty)) (q : PageProperty),
      findTitleProperty l = some q →
      (∃ kv ∈ l, kv.2 = q) ∧
        (q.type == "title" && decide (q.title.length > 0)) = true := by
  intro l
  induction l with
  | nil => intro q h; simp [findTitleProperty] at h
  | cons kv rest ih =>
    intro q h
    rw [findTitleProperty] at h
    by_cases hc : (kv.2.type == "title" && decide (kv.2.title.length > 0)) = true
    · rw [if_pos hc] at h
      obtain rfl := Option.some_injective _ h
      exact ⟨⟨kv, List.mem_cons_self kv rest, rfl⟩, hc⟩
    · rw [if_neg hc] at h
      obtain ⟨⟨kv', hkv', rfl⟩, hq⟩ := ih q h
      exact ⟨⟨kv', List.mem_cons_of_mem _ hkv', rfl⟩, hq⟩

theorem getPageTitle_ne_empty (p : RawPage) (h : rawPageTitleOk p = true) :
    getPageTitle p ≠ "" := by
  rw [getPageTitle]
  rcases hp : p.properties with _ | props
  · rcases p.child_page with _ | cp
    · simp
    · dsimp only
      split
      · simp
      · next hcp => simpa using hcp
  · dsimp only
    rcases hf : findTitleProperty props with _ | q
    · rcases p.child_page with _ | cp
      · simp
      · dsimp only
        split
        · simp
        · next hcp => simpa using hcp
    · dsimp only
      obtain ⟨⟨kv, hkv, rfl⟩, hq⟩ := findTitleProperty_spec props q hf
      rw [rawPageTitleOk, hp] at h
      have hok : propertyTitleOk kv.2 = true := by
        have := List.all_eq_true.mp h kv
        simpa using this hkv
      rw [propertyTitleOk, hq] at hok
      simpa using hok

theorem getDatabaseTitle_ne_empty (db : RawDatabase)
    (h : rawDatabaseTitleOk db = true) :
    getDatabaseTitle db ≠ "" := by
  rw [getDatabaseTitle]
  split
  · next hlen =>
    rw [rawDatabaseTitleOk] at h
    rcases Bool.or_eq_true_iff.mp h with h0 | hne
    · have h0' : db.title.length = 0 := by simpa using h0
      have hlen' : 0 < db.title.length := by simpa using hlen
      omega
    · simpa using hne
  · simp



theorem childBlockItem_title_ne (cfg : Config) (r : Remote) (b : Block)
    (hb : blockTitleOk b = true) :
    ∀ it, (childBlockItem cfg r b).1 = some it → it.title ≠ "" := by
  cases b with
  | childPage id t =>
    intro it hit
    have ht : t ≠ "" := by simpa [blockTitleOk] using hb
    rw [childBlockItem] at hit
    split at hit
    · split at hit <;> (obtain rfl := Option.some_injective _ hit; exact ht)
    · obtain rfl := Option.some_injective _ hit; exact ht
  | childDatabase id t =>
    intro it hit
    have ht : t ≠ "" := by simpa [blockTitleOk] using hb
    rw [childBlockItem] at hit
    split at hit
    · split at hit <;> (obtain rfl := Option.some_injective _ hit; exact ht)
    · obtain rfl := Option.some_injective _ hit; exact ht
  | other id ty => intro it hit; simp [childBlockItem] at hit

theorem processBlocks_title_ne (cfg : Config) (r : Remote) :
    ∀ bs, (∀ b ∈ bs, blockTitleOk b = true) →
      ∀ it ∈ (processBlocks cfg r bs).1, it.title ≠ "" := by
  intro bs
  induction bs with
  | nil => intro _ it hit; simp [processBlocks] at hit
  | cons b rest ih =>
    intro hok it hit
    simp only [processBlocks, List.mem_append] at hit
    rcases hit with hit | hit
    · rcases hb : (childBlockItem cfg r b).1 with _ | v
      · rw [hb] at hit; simp at hit
      · rw [hb] at hit
        simp only [Option.toList, List.mem_singleton] at hit
        subst hit
        exact childBlockItem_title_ne cfg r b
          (hok b (List.mem_cons_self b rest)) it hb
    · exact ih (fun x hx => hok x (List.mem_cons_of_mem _ hx)) it hit

theorem fetchBatches_title_ne (cfg : Config) (r : Remote) :
    ∀ l, (∀ batch ∈ l, ∀ blocks, batch = Except.ok blocks →
        ∀ b ∈ blocks, blockTitleOk b = true) →
      ∀ it ∈ (fetchBatches cfg r l).1, it.title ≠ "" := by
  intro l
  induction l with
  | nil => intro _ it hit; simp [fetchBatches] at hit
  | cons batch rest ih =>
    intro hok it hit
    cases batch with
    | error e => simp [fetchBatches] at hit
    | ok blocks =>
      simp only [fetchBatches, List.mem_append] at hit
      rcases hit with hit | hit
      · exact processBlocks_title_ne cfg r blocks
          (hok _ (List.mem_cons_self _ rest) blocks rfl) it hit
      · exact ih (fun x hx => hok x (List.mem_cons_of_mem _ hx)) it hit

theorem fetchPageChildren_title_ne (cfg : Config) (r : Remote)
    (h : ∀ i, ∀ batch ∈ r.listChildren i, ∀ blocks, batch = Except.ok blocks →
      ∀ b ∈ blocks, blockTitleOk b = true) (i : String) :
    ∀ it ∈ (fetchPageChildren cfg r i).1, it.title ≠ "" :=
  fetchBatches_title_ne cfg r (r.listChildren i) (h i)

theorem fetchDatabasePages_title_ne (cfg : Config) (r : Remote)
    (h : ∀ i rows, r.queryDatabase i = .ok rows →
      ∀ p ∈ rows, rawPageTitleOk p = true) (i : String) :
    ∀ it ∈ (fetchDatabasePages cfg r i).1, it.title ≠ "" := by
  intro it hit
  rw [fetchDatabasePages] at hit
  cases hq : r.queryDatabase i with
  | ok results =>
    rw [hq] at hit
    obtain ⟨p, hp, rfl⟩ := List.mem_map.mp hit
    exact getPageTitle_ne_empty p (h i results hq p hp)
  | error e => rw [hq] at hit; simp at hit

theorem fetchRootItems_title_ne (cfg : Config) (r : Remote)
    (h1 : ∀ p ∈ r.searchPages, rawPageTitleOk p = true)
    (h2 : ∀ db ∈ r.searchDatabases, rawDatabaseTitleOk db = true) :
    ∀ it ∈ fetchRootItems cfg r, it.title ≠ "" := by
  intro it hit
  rw [fetchRootItems_eq] at hit
  rcases List.mem_append.mp hit with hm | hm
  · obtain ⟨q, hq, rfl⟩ := List.mem_map.mp hm
    exact getPageTitle_ne_empty q (h1 q (List.mem_of_mem_filter hq))
  · obtain ⟨q, hq, rfl⟩ := List.mem_map.mp hm
    exact getDatabaseTitle_ne_empty q (h2 q (List.mem_of_mem_filter hq))

/-- C3 counterexample: a workspace database whose title rich-text
array is present but concatenates to the empty string (one run with
empty `plain_text`) passes the `title.length > 0` guard of
`getDatabaseTitle`, so the resulting tree contains a node whose
`title` is the empty string — refuting the claim that every node's
title is non-empty. -/
theorem C3_counterexample :
    ¬ (∀ t ∈ (runTraversal plainCfg c3remote 1).1,
        AllNodes (fun n => n.title ≠ "") t) := by
  intro h
  have hmem : TreeNode.mk "d0" "" "database" none [] ∈
      (runTraversal plainCfg c3remote 1).1 :=
    List.mem_singleton.mpr rfl
  cases h _ hmem with
  | node _ _ _ _ _ hp _ => exact hp rfl

/-- C3 amended: node titles follow the documented fallbacks, and every
node's title is non-empty PROVIDED the remote title data is
non-degenerate: every non-empty title property concatenates to
non-empty plain text, database title runs (when present) concatenate
to non-empty text, and embedded child_page/child_database block
titles are non-empty.  Without that proviso an empty concatenation or
embedded title is propagated verbatim into the node. -/
theorem C3_titles_nonempty (cfg : Config) (r : Remote)
    (h : remoteTitlesOk r) :
    ∀ fuel, ∀ t ∈ (runTraversal cfg r fuel).1,
      AllNodes (fun n => n.title ≠ "") t := by
  obtain ⟨h1, h2, h3, h4⟩ := h
  intro fuel t ht
  rw [runTraversal, buildForest_eq] at ht
  obtain ⟨it, hit, rfl⟩ := List.mem_map.mp ht
  refine buildTree_allNodes cfg r (fun i => i.title ≠ "")
    (fun n => n.title ≠ "") ?_ ?_ ?_ fuel it 0
    (fetchRootItems_title_ne cfg r h1 h2 it hit)
  · intro item hi children
    simpa [TreeNode.title] using hi
  · exact fun i => fetchDatabasePages_title_ne cfg r h3 i
  · exact fun i => fetchPageChildren_title_ne cfg r h4 i

theorem C3_witness :
    AllNodes (fun n => n.title ≠ "")
      (TreeNode.mk "p1" "Notes" "page" none []) := by
  refine C3_titles_nonempty plainCfg c3okremote ⟨?_, ?_, ?_, ?_⟩ 3
    (TreeNode.mk "p1" "Notes" "page" none []) ?_
  · decide
  · decide
  · intro i rows h p hp
    simp only [c3okremote] at h
    injection h with h2
    subst h2
    obtain rfl := List.mem_singleton.mp hp
    decide
  · intro i batch hb
    simp [c3okremote] at hb
  · exact List.mem_cons_self _ _

theorem fetchRootItemsP_pages_fold (cfg : Config) (quiet : Bool) :
    ∀ (l : List RawPage) (acc : List Item) (n : Nat) (ps : ProgressState),
      (l.foldl
        (fun (acc : List Item × Nat × ProgressState) result =>
          let items :=
            if result.parent == "workspace" then
              acc.1 ++ [rootPageItem cfg result]
            else acc.1
          let n := acc.2.1 + 1
          (items, n,
           updateSpinnerMessage quiet ("Found " ++ toString n ++ " pages...")
             acc.2.2))
        (acc, n, ps)).1 =
      l.foldl
        (fun acc result =>
          if result.parent == "workspace" then
            acc ++ [rootPageItem cfg result]
          else acc) acc := by
  intro l
  induction l with
  | nil => intro acc n ps; rfl
  | cons x xs ih =>
    intro acc n ps
    simp only [List.foldl_cons]
    exact ih _ _ _

theorem fetchRootItemsP_dbs_fold (cfg : Config) (quiet : Bool) (pn : Nat) :
    ∀ (l : List RawDatabase) (acc : List Item) (n : Nat) (ps : ProgressState),
      (l.foldl
        (fun (acc : List Item × Nat × ProgressState) result =>
          let items :=
            if result.parent == "workspace" then
              acc.1 ++ [rootDatabaseItem cfg result]
            else acc.1
          let n := acc.2.1 + 1
          (items, n,
           updateSpinnerMessage quiet
             ("Found " ++ toString pn ++ " pages and " ++ toString n ++
              " databases...") acc.2.2))
        (acc, n, ps)).1 =
      l.foldl
        (fun acc result =>
          if result.parent == "workspace" then
            acc ++ [rootDatabaseItem cfg result]
          else acc) acc := by
  intro l
  induction l with
  | nil => intro acc n ps; rfl
  | cons x xs ih =>
    intro acc n ps
    simp only [List.foldl_cons]
    exact ih _ _ _

theorem fetchRootItemsP_fst (cfg : Config) (quiet : Bool) (r : Remote)
    (ps : ProgressState) :
    (fetchRootItemsP cfg quiet r ps).1 = fetchRootItems cfg r := by
  rw [fetchRootItemsP, fetchRootItems]
  dsimp only
  rw [fetchRootItemsP_dbs_fold, fetchRootItemsP_pages_fold]



theorem fetchDatabasePagesP_fst (cfg : Config) (quiet : Bool) (r : Remote)
    (i : String) (ps : ProgressState) :
    (fetchDatabasePagesP cfg quiet r i ps).1 = fetchDatabasePages cfg r i := by
  rw [fetchDatabasePagesP, fetchDatabasePages]
  cases r.queryDatabase i <;> rfl

theorem fetchBatchesP_fst (cfg : Config) (quiet : Bool) (r : Remote)
    (pid : String) :
    ∀ (l : List (Except Unit (List Block))) (ps : ProgressState),
      (fetchBatchesP cfg quiet r pid l ps).1 = fetchBatches cfg r l := by
  intro l
  induction l with
  | nil => intro ps; rfl
  | cons b rest ih =>
    intro ps
    cases b with
    | error e => rfl
    | ok blocks =>
      rw [fetchBatchesP, fetchBatches]
      dsimp only
      rw [ih]

theorem fetchPageChildrenP_fst (cfg : Config) (quiet : Bool) (r : Remote)
    (i : String) (ps : ProgressState) :
    (fetchPageChildrenP cfg quiet r i ps).1 = fetchPageChildren cfg r i := by
  rw [fetchPageChildrenP, fetchPageChildren]
  dsimp only
  rw [fetchBatchesP_fst]

theorem buildChildrenP_fold_fst (cfg : Config) (quiet : Bool) (r : Remote)
    (fuel depth : Nat)
    (hIH : ∀ item depth ps,
      (buildTreeP cfg quiet r fuel item depth ps).1 =
        buildTree cfg r fuel item depth) :
    ∀ (children : List Item) (accL : List TreeNode) (accC : Calls)
      (ps : ProgressState),
      (children.foldl
        (fun (acc : (List TreeNode × Calls) × ProgressState) child =>
          let res := buildTreeP cfg quiet r fuel child depth acc.2
          ((acc.1.1 ++ [res.1.1], acc.1.2 + res.1.2), res.2))
        ((accL, accC), ps)).1 =
      (accL ++ children.map (fun c => (buildTree cfg r fuel c depth).1),
       accC + sumCalls (children.map (fun c => (buildTree cfg r fuel c depth).2))) := by
  intro children
  induction children with
  | nil =>
    intro accL accC ps
    simp [sumCalls, calls_add_zero]
  | cons c cs ih =>
    intro accL accC ps
    simp only [List.foldl_cons]
    rw [ih]
    have hc := hIH c depth ps
    refine Prod.ext ?_ ?_
    · simp [hc, List.append_assoc]
    · simp [hc, sumCalls, calls_add_assoc]

theorem buildTreeP_fst (cfg : Config) (quiet : Bool) (r : Remote) :
    ∀ fuel item depth ps,
      (buildTreeP cfg quiet r fuel item depth ps).1 =
        buildTree cfg r fuel item depth := by
  intro fuel
  induction fuel with
  | zero =>
    intro item depth ps
    rw [buildTreeP, buildTree]
    dsimp only
    split <;> rfl
  | succ fuel ih =>
    intro item depth ps
    rw [buildTreeP, buildTree]
    dsimp only
    by_cases hdr : depthReached depth cfg.maxDepth = true
    · rw [if_pos hdr, if_pos hdr]
    · rw [if_neg hdr, if_neg hdr]
      by_cases hty : (item.type == "database") = true
      · rw [if_pos hty, if_pos hty]
        rw [buildChildrenP_fold_fst cfg quiet r fuel (depth + 1) ih]
        rw [fetchDatabasePagesP_fst]
        simp [List.map_map]
        rfl
      · rw [if_neg hty, if_neg hty]
        by_cases hty2 : (item.type == "page") = true
        · rw [if_pos hty2, if_pos hty2]
          rw [buildChildrenP_fold_fst cfg quiet r fuel (depth + 1) ih]
          rw [fetchPageChildrenP_fst]
          simp [List.map_map]
          rfl
        · rw [if_neg hty2, if_neg hty2]

theorem buildForestP_fst (cfg : Config) (quiet : Bool) (r : Remote)
    (fuel : Nat) :
    ∀ (roots : List Item) (i : Nat) (acc : List TreeNode × Calls)
      (ps : ProgressState),
      (buildForestP cfg quiet r fuel roots i acc ps).1 =
        (acc.1 ++ roots.map (fun it => (buildTree cfg r fuel it 0).1),
         acc.2 + sumCalls (roots.map (fun it => (buildTree cfg r fuel it 0).2))) := by
  intro roots
  induction roots with
  | nil =>
    intro i acc ps
    simp [buildForestP, sumCalls, calls_add_zero]
  | cons rootItem rest ih =>
    intro i acc ps
    rw [buildForestP]
    rw [ih]
    have hc := buildTreeP_fst cfg quiet r fuel rootItem 0
      (updateSpinnerMessage quiet ("Processing " ++ rootItem.title ++ "...") ps)
    refine Prod.ext ?_ ?_
    · simp [hc, List.append_assoc]
    · simp [hc, sumCalls, calls_add_assoc]

theorem runTraversalP_fst (cfg : Config) (quiet : Bool) (r : Remote)
    (fuel : Nat) (ps : ProgressState) :
    (runTraversalP cfg quiet r fuel ps).1 = runTraversal cfg r fuel := by
  rw [runTraversalP, runTraversal]
  dsimp only
  rw [buildForestP_fst, fetchRootItemsP_fst, buildForest_eq]
  simp [calls_zero_add]

/-- C9: progress reporting never affects the traversal outcome: for
every remote graph and configuration, the traversal result (tree and
issued calls) of the progress-instrumented run equals the plain run,
for every initial progress state and independently of the quiet flag —
the result does not depend on the progress-reporting state or
counters, so emitting, consuming or suppressing progress events leaves
the tree identical. -/
theorem C9_progress_observational (cfg : Config) (r : Remote) (fuel : Nat)
    (q1 q2 : Bool) (ps1 ps2 : ProgressState) :
    (runTraversalP cfg q1 r fuel ps1).1 = runTraversal cfg r fuel ∧
    (runTraversalP cfg q1 r fuel ps1).1 = (runTraversalP cfg q2 r fuel ps2).1 := by
  refine ⟨runTraversalP_fst cfg q1 r fuel ps1, ?_⟩
  rw [runTraversalP_fst cfg q1 r fuel ps1, runTraversalP_fst cfg q2 r fuel ps2]
end NotionTree
